import Mathlib

/-!
Shallow embedding of the score-parsing core of `src/app.py` (johang88/guessr).

The Python code drives everything through `re.search`, `re.findall` and
`re.sub` over a small fragment of regular expressions: case-insensitive
literals, one case-sensitive alternation of literals (the weekday names),
and single-character-class quantifiers (greedy or lazy, with optional
capture).  We embed that fragment as a token list and implement the exact
backtracking search Python performs: leftmost start position wins; at a
given position a greedy quantifier is tried longest-first and a lazy one
shortest-first, with full backtracking across tokens.  All inputs in the
claims are ASCII plus the emoji squares, so the ASCII case-folding and
character classes below coincide with Python's on every input considered.
-/

namespace Guessr

/-- Python `\d` (ASCII fragment; the share texts contain no non-ASCII digits). -/
def pyDigit (c : Char) : Bool := c.isDigit

/-- Python `\s` (ASCII fragment: space, tab, newline, carriage return,
vertical tab, form feed). -/
def pySpace (c : Char) : Bool :=
  c == ' ' || c == '\t' || c == '\n' || c == '\r' || c == Char.ofNat 11 || c == Char.ofNat 12

/-- Python `\w` (ASCII fragment: letters, digits, underscore). -/
def pyWord (c : Char) : Bool := c.isAlpha || c.isDigit || c == '_'

/-- Case-insensitive character comparison, as under `re.IGNORECASE`
(ASCII fold; all literals in the source patterns are ASCII). -/
def charEqCI (a b : Char) : Bool := a.toLower == b.toLower

/-- Captured groups: group index paired with the captured characters. -/
abbrev Caps := List (Nat × List Char)

/-- One token of the regex fragment used by `src/app.py`:
* `lit ci l` — literal `l`, case-insensitive when `ci`;
* `alt ls` — case-sensitive alternation of literals, tried left to right;
* `cls p mn mx lz cap` — a quantified single-character class: between `mn`
  and `mx` (`none` = unbounded) characters satisfying `p`, lazy when `lz`,
  captured as group `cap` when present. -/
inductive Tok where
  | lit : Bool → List Char → Tok
  | alt : List (List Char) → Tok
  | cls : (Char → Bool) → Nat → Option Nat → Bool → Option Nat → Tok

/-- Match a literal at the head of the input; returns the rest on success. -/
def litMatch (ci : Bool) : List Char → List Char → Option (List Char)
  | [], s => some s
  | _ :: _, [] => none
  | c :: cs, x :: xs =>
      if (if ci then charEqCI c x else c == x) then litMatch ci cs xs else none

/-- Length of the maximal prefix run of characters satisfying `p`. -/
def runLen (p : Char → Bool) : List Char → Nat
  | [] => 0
  | c :: cs => if p c then runLen p cs + 1 else 0

/-- Backtracking matcher for a token sequence anchored at the start of `s`.
Returns the captures and the input remaining after the match (so the match
end, Python's `m.end()`, is where the returned remainder begins).  Candidate
counts for a quantifier are tried longest-first (greedy) or shortest-first
(lazy), exactly Python's preference order. -/
def matchToks : List Tok → List Char → Option (Caps × List Char)
  | [], s => some ([], s)
  | Tok.lit ci l :: ts, s =>
      match litMatch ci l s with
      | none => none
      | some rest => matchToks ts rest
  | Tok.alt ls :: ts, s =>
      ls.findSome? fun l =>
        match litMatch false l s with
        | none => none
        | some rest => matchToks ts rest
  | Tok.cls p mn mx lz cap :: ts, s =>
      let r := runLen p s
      let hi := match mx with
        | none => r
        | some m => Nat.min m r
      if hi < mn then none
      else
        let cands := if lz then (List.range (hi + 1 - mn)).map (mn + ·)
                     else (List.range (hi + 1 - mn)).map (hi - ·)
        cands.findSome? fun n =>
          match matchToks ts (s.drop n) with
          | none => none
          | some (caps, rest) =>
              some ((match cap with
                     | none => caps
                     | some i => (i, s.take n) :: caps), rest)

/-- `re.search` auxiliary: try each start position left to right, tracking
the current position (Python's `m.start()`). -/
def reSearchAux (toks : List Tok) : List Char → Nat → Option (Nat × Caps × List Char)
  | s, pos =>
      match matchToks toks s with
      | some (caps, rest) => some (pos, caps, rest)
      | none =>
          match s with
          | [] => none
          | _ :: xs => reSearchAux toks xs (pos + 1)

/-- `re.search`: leftmost match; returns start position, captures, and the
input remaining after the match end. -/
def reSearch (toks : List Tok) (s : List Char) : Option (Nat × Caps × List Char) :=
  reSearchAux toks s 0

/-- Look up a captured group (empty when the group is absent). -/
def getCap (caps : Caps) (i : Nat) : List Char :=
  match caps.find? (fun p => p.1 == i) with
  | some p => p.2
  | none => []

/-- Digits to a natural number, as `int` does on a digit string. -/
def digitsToNat (l : List Char) : Nat :=
  l.foldl (fun acc c => acc * 10 + (c.toNat - 48)) 0

/-- Python `int(s)` on the strings this code feeds it: an optional sign
followed by at least one digit; anything else raises `ValueError`, which we
render as `none`. -/
def pyInt (l : List Char) : Option Int :=
  match l with
  | '+' :: ds => if !ds.isEmpty && ds.all pyDigit then some (digitsToNat ds) else none
  | '-' :: ds => if !ds.isEmpty && ds.all pyDigit then some (-(digitsToNat ds : Int)) else none
  | ds => if !ds.isEmpty && ds.all pyDigit then some (digitsToNat ds) else none

/-- `re.sub(r'[\s,]', '', x)`. -/
def stripSpComma (l : List Char) : List Char :=
  l.filter fun c => !(pySpace c || c == ',')

/-- A parsed score, the dict `{"game": ..., "number": ..., "score": ...}`
each parser returns. -/
structure ParsedScore where
  game : String
  number : String
  score : Int
deriving DecidableEq

/-- `\s+` (greedy, uncaptured). -/
def sp1 : Tok := Tok.cls pySpace 1 none false none

/-- `(\d+)` captured as group `i`. -/
def digitsCap (i : Nat) : Tok := Tok.cls pyDigit 1 none false (some i)

/-- `#travle\s+#(\d+)\s+\+?\d*\s*\(Perfect\)` (IGNORECASE). -/
def travlePerfectToks : List Tok :=
  [Tok.lit true "#travle".toList, sp1, Tok.lit true "#".toList, digitsCap 1, sp1,
   Tok.cls (fun c => c == '+') 0 (some 1) false none,
   Tok.cls pyDigit 0 none false none,
   Tok.cls pySpace 0 none false none,
   Tok.lit true "(Perfect)".toList]

/-- `#travle\s+#(\d+)\s+([+-]?\d+)` (IGNORECASE).  The source's group 2
spans an optional sign and the digits; we capture the sign part as group 2
and the digit part as group 3 and concatenate them at the use site, which
yields exactly the source's `m.group(2)`. -/
def travleToks : List Tok :=
  [Tok.lit true "#travle".toList, sp1, Tok.lit true "#".toList, digitsCap 1, sp1,
   Tok.cls (fun c => c == '+' || c == '-') 0 (some 1) false (some 2),
   Tok.cls pyDigit 1 none false (some 3)]

/-- `parse_travle` from `src/app.py`. -/
def parse_travle (text : String) : Option ParsedScore :=
  match reSearch travlePerfectToks text.toList with
  | some (_, caps, _) => some ⟨"Travle", (getCap caps 1).asString, -1⟩
  | none =>
      match reSearch travleToks text.toList with
      | none => none
      | some (_, caps, _) =>
          match pyInt (getCap caps 2 ++ getCap caps 3) with
          | none => none
          | some n => some ⟨"Travle", (getCap caps 1).asString, n⟩

/-- `Connections\s+Puzzle\s+#(\d+)` (IGNORECASE). -/
def connectionsToks : List Tok :=
  [Tok.lit true "Connections".toList, sp1, Tok.lit true "Puzzle".toList, sp1,
   Tok.lit true "#".toList, digitsCap 1]

/-- `\n\s*\n`, the blank-line boundary searched for by `parse_connections`. -/
def blankToks : List Tok :=
  [Tok.lit false "\n".toList, Tok.cls pySpace 0 none false none, Tok.lit false "\n".toList]

/-- `emoji_section[:next_game.start()]` where `next_game = re.search(r'\n\s*\n', emoji_section)`:
truncate at the first blank-line boundary, or keep everything when there is none. -/
def cutBlank (s : List Char) : List Char :=
  match reSearch blankToks s with
  | none => s
  | some (pos, _, _) => s.take pos

/-- The Connections palette `[🟪🟩🟨🟦]`. -/
def connectionsPalette : List Char := ['🟪', '🟩', '🟨', '🟦']

/-- `[colors[i:i+4] for i in range(0, len(colors), 4)]`: consecutive chunks
of four in appearance order (the last chunk may be shorter). -/
def chunks4 : List Char → List (List Char)
  | [] => []
  | a :: b :: c :: d :: rest => [a, b, c, d] :: chunks4 rest
  | l => [l]

/-- `parse_connections` from `src/app.py`.  `len(set(row)) != 1` is the
number of distinct elements of the row, i.e. `row.dedup.length ≠ 1`. -/
def parse_connections (text : String) : Option ParsedScore :=
  match reSearch connectionsToks text.toList with
  | none => none
  | some (_, caps, rest) =>
      let emoji_section := cutBlank rest
      let colors := emoji_section.filter (fun c => connectionsPalette.contains c)
      if colors.isEmpty then none
      else
        let rows := chunks4 colors
        let mistakes := (rows.filter fun row => row.length == 4 && row.dedup.length != 1).length
        let score : Int := if rows.length > 7 then 4 else mistakes
        some ⟨"Connections", (getCap caps 1).asString, score⟩

/-- `Wordle\s+([\d\s,]+?)\s+([X\d])/6` (IGNORECASE): lazy index group, then
a single `X` or digit (case-insensitively, so also `x`), then `/6`. -/
def wordleToks : List Tok :=
  [Tok.lit true "Wordle".toList, sp1,
   Tok.cls (fun c => pyDigit c || pySpace c || c == ',') 1 none true (some 1),
   sp1,
   Tok.cls (fun c => pyDigit c || c == 'X' || c == 'x') 1 (some 1) false (some 2),
   Tok.lit true "/6".toList]

/-- `parse_wordle` from `src/app.py`. -/
def parse_wordle (text : String) : Option ParsedScore :=
  match reSearch wordleToks text.toList with
  | none => none
  | some (_, caps, _) =>
      let number := stripSpComma (getCap caps 1)
      let score_str := getCap caps 2
      if score_str.map Char.toUpper == ['X'] then
        some ⟨"Wordle", number.asString, 7⟩
      else
        match pyInt score_str with
        | none => none
        | some n => some ⟨"Wordle", number.asString, n⟩

/-- `#GuessTheMovie\s+#(\d+)` (IGNORECASE). -/
def guessTheMovieToks : List Tok :=
  [Tok.lit true "#GuessTheMovie".toList, sp1, Tok.lit true "#".toList, digitsCap 1]

/-- `#GuessTheGame\s+#(\d+)` (IGNORECASE). -/
def guessTheGameToks : List Tok :=
  [Tok.lit true "#GuessTheGame".toList, sp1, Tok.lit true "#".toList, digitsCap 1]

/-- Shared payload of `parse_guess_the_movie` / `parse_guess_the_game`:
filter the palette squares out of everything after the header (no blank-line
truncation in the source!), then 1-based index of the first 🟩, or 7. -/
def firstGreenScore (palette : List Char) (rest : List Char) : Int :=
  let squares := rest.filter (fun c => palette.contains c)
  match squares.findIdx? (fun c => c == '🟩') with
  | some i => (i : Int) + 1
  | none => 7

/-- `parse_guess_the_movie` from `src/app.py`: palette `[🟥🟩⬜]`. -/
def parse_guess_the_movie (text : String) : Option ParsedScore :=
  match reSearch guessTheMovieToks text.toList with
  | none => none
  | some (_, caps, rest) =>
      some ⟨"GuessTheMovie", (getCap caps 1).asString, firstGreenScore ['🟥', '🟩', '⬜'] rest⟩

/-- `parse_guess_the_game` from `src/app.py`: palette `[🟥🟨🟩⬜]`. -/
def parse_guess_the_game (text : String) : Option ParsedScore :=
  match reSearch guessTheGameToks text.toList with
  | none => none
  | some (_, caps, rest) =>
      some ⟨"GuessTheGame", (getCap caps 1).asString, firstGreenScore ['🟥', '🟨', '🟩', '⬜'] rest⟩

/-- `I got ([\d\s,]+?) on the FoodGuessr` (IGNORECASE); the spaces around
the group are literal characters of the pattern. -/
def foodguessrToks : List Tok :=
  [Tok.lit true "I got ".toList,
   Tok.cls (fun c => pyDigit c || pySpace c || c == ',') 1 none true (some 1),
   Tok.lit true " on the FoodGuessr".toList]

/-- `parse_foodguessr` from `src/app.py`. -/
def parse_foodguessr (text : String) : Option ParsedScore :=
  match reSearch foodguessrToks text.toList with
  | none => none
  | some (_, caps, _) =>
      match pyInt (stripSpComma (getCap caps 1)) with
      | none => none
      | some n => some ⟨"FoodGuessr", "", n⟩

/-- `TimeGuessr\s+#(\d+)\s+([\d\s,]+?)/([\d\s,]+)` (IGNORECASE). -/
def timeguessrToks : List Tok :=
  [Tok.lit true "TimeGuessr".toList, sp1, Tok.lit true "#".toList, digitsCap 1, sp1,
   Tok.cls (fun c => pyDigit c || pySpace c || c == ',') 1 none true (some 2),
   Tok.lit true "/".toList,
   Tok.cls (fun c => pyDigit c || pySpace c || c == ',') 1 none false (some 3)]

/-- `parse_timeguessr` from `src/app.py`: the numerator only becomes the score. -/
def parse_timeguessr (text : String) : Option ParsedScore :=
  match reSearch timeguessrToks text.toList with
  | none => none
  | some (_, caps, _) =>
      match pyInt (stripSpComma (getCap caps 2)) with
      | none => none
      | some n => some ⟨"TimeGuessr", (getCap caps 1).asString, n⟩

/-- The weekday alternation of `parse_date_from_text`'s regex.  That regex is
compiled *without* `re.IGNORECASE`, so these literals match case-sensitively. -/
def weekdayNames : List String :=
  ["Monday", "Tuesday", "Wednesday", "Thursday", "Friday", "Saturday", "Sunday"]

/-- `(?:Monday|...|Sunday),?\s+(\w+)\s+(\d+),?\s+(\d{4})` (case-sensitive). -/
def dateToks : List Tok :=
  [Tok.alt (weekdayNames.map String.toList),
   Tok.cls (fun c => c == ',') 0 (some 1) false none,
   sp1,
   Tok.cls pyWord 1 none false (some 1),
   sp1,
   digitsCap 2,
   Tok.cls (fun c => c == ',') 0 (some 1) false none,
   sp1,
   Tok.cls pyDigit 4 (some 4) false (some 3)]

/-- The `%b` month abbreviations of `datetime.strptime` (C locale), matched
case-insensitively. -/
def monthAbbrs : List (List Char) :=
  (["Jan", "Feb", "Mar", "Apr", "May", "Jun",
    "Jul", "Aug", "Sep", "Oct", "Nov", "Dec"]).map String.toList

/-- Match a `%b` month abbreviation at the head of the input (no two
abbreviations are prefixes of one another, so at most one matches);
returns the month number and the rest. -/
def findMonth (s : List Char) : Option (Nat × List Char) :=
  monthAbbrs.enum.findSome? fun p =>
    match litMatch true p.2 s with
    | none => none
    | some rest => some (p.1 + 1, rest)

/-- The `%d` pattern of `_strptime`: `3[01]|[12]\d|0[1-9]|[1-9]`, alternatives
in that order.  In `pyStrptimeBdY` the character after the day must be
whitespace, and every shorter alternative leaves a digit there, so the
first-matching alternative is equivalent to full backtracking. -/
def parseDay : List Char → Option (Nat × List Char)
  | '3' :: '0' :: rest => some (30, rest)
  | '3' :: '1' :: rest => some (31, rest)
  | c :: d :: rest =>
      if (c == '1' || c == '2') && pyDigit d then
        some ((c.toNat - 48) * 10 + (d.toNat - 48), rest)
      else if c == '0' && ('1' ≤ d && d ≤ '9') then
        some (d.toNat - 48, rest)
      else if '1' ≤ c && c ≤ '9' then
        some (c.toNat - 48, d :: rest)
      else none
  | [c] => if '1' ≤ c && c ≤ '9' then some (c.toNat - 48, []) else none
  | [] => none

/-- Gregorian leap year, as `datetime` uses. -/
def leapYear (y : Nat) : Bool := (y % 4 == 0 && y % 100 != 0) || y % 400 == 0

/-- Days in a month, as `datetime` validates. -/
def daysInMonth (y m : Nat) : Nat :=
  if m == 2 then (if leapYear y then 29 else 28)
  else if m == 4 || m == 6 || m == 9 || m == 11 then 30
  else 31

/-- `datetime.strptime(s, "%b %d %Y")`: month abbreviation (case-insensitive),
whitespace, day per the `%d` pattern, whitespace, exactly four digits of year
(`%Y` compiles to `\d\d\d\d`), nothing left over, and the resulting date must
be a valid calendar date with year ≥ 1; `ValueError` is rendered as `none`.
Returns `(year, month, day)`. -/
def pyStrptimeBdY (s : List Char) : Option (Nat × Nat × Nat) :=
  match findMonth s with
  | none => none
  | some (m, r1) =>
      let w1 := runLen pySpace r1
      if w1 == 0 then none
      else
        match parseDay (r1.drop w1) with
        | none => none
        | some (d, r2) =>
            let w2 := runLen pySpace r2
            if w2 == 0 then none
            else
              let r3 := r2.drop w2
              let ys := r3.take 4
              if ys.length == 4 && ys.all pyDigit && (r3.drop 4).isEmpty then
                let y := digitsToNat ys
                if 1 ≤ y && 1 ≤ d && d ≤ daysInMonth y m then some (y, m, d)
                else none
              else none

/-- Two-digit zero padding, as `strftime`'s `%m`/`%d` produce. -/
def pad2 (n : Nat) : String := if n < 10 then "0" ++ toString n else toString n

/-- `dt.strftime("%Y-%m-%d")` (glibc leaves `%Y` unpadded; every year here
comes from four digits). -/
def fmtDate (y m d : Nat) : String := toString y ++ "-" ++ pad2 m ++ "-" ++ pad2 d

/-- `parse_date_from_text` from `src/app.py`: the weekday-anchored regex
search, then `strptime` on `f"{m.group(1)} {m.group(2)} {m.group(3)}"`. -/
def parse_date_from_text (text : String) : Option String :=
  match reSearch dateToks text.toList with
  | none => none
  | some (_, caps, _) =>
      let composed := getCap caps 1 ++ [' '] ++ getCap caps 2 ++ [' '] ++ getCap caps 3
      match pyStrptimeBdY composed with
      | none => none
      | some (y, m, d) => some (fmtDate y m d)

/-- Line 248 of `src/app.py`:
`play_date = parse_date_from_text(text) or datetime.now().strftime("%Y-%m-%d")`.
`today` stands for the ambient current date; a parsed date string is nonempty,
hence truthy, so Python's `or` is exactly `Option.getD`. -/
def play_date (text today : String) : String :=
  (parse_date_from_text text).getD today

/-- The `PARSERS` registry, in registration order (lines 173-181). -/
def PARSERS : List (String → Option ParsedScore) :=
  [parse_travle, parse_connections, parse_wordle, parse_guess_the_movie,
   parse_guess_the_game, parse_foodguessr, parse_timeguessr]

/-- Outcome of one parser call inside the dispatcher's `try`: either an
unexpected exception (`fault`) or a normal return value. -/
inductive POutcome where
  | fault : POutcome
  | res : Option ParsedScore → POutcome

/-- What one `try`-wrapped parser call contributes: a fault is swallowed. -/
def runOutcome : POutcome → Option ParsedScore
  | POutcome.fault => none
  | POutcome.res r => r

/-- The dispatcher loop of `api_parse` (lines 250-257): each parser runs
inside `try`; an exception is ignored (`except: pass`), a truthy (non-None)
result is appended, and the loop always continues with the next parser. -/
def dispatchO : List (String → POutcome) → String → List ParsedScore
  | [], _ => []
  | p :: ps, text =>
      match p text with
      | POutcome.fault => dispatchO ps text
      | POutcome.res none => dispatchO ps text
      | POutcome.res (some r) => r :: dispatchO ps text

/-- Lift a total parser into the outcome world: our embedded parsers return
`none` where Python would raise inside the parser, and never fault. -/
def wrapped (p : String → Option ParsedScore) : String → POutcome :=
  fun t => POutcome.res (p t)

/-- The aggregate parse result (`results`) computed by `api_parse`. -/
def api_parse_results (text : String) : List ParsedScore :=
  dispatchO (PARSERS.map wrapped) text

/-- One entry of `SCORE_RANGES`: inclusive bounds and direction flag. -/
structure GameSpec where
  min : ℚ
  max : ℚ
  lower_better : Bool
deriving DecidableEq

/-- The `SCORE_RANGES` dict (lines 189-197); `.get` on a dict is `none` for
an unknown key. -/
def SCORE_RANGES (game : String) : Option GameSpec :=
  if game = "Travle" then some ⟨-1, 20, true⟩
  else if game = "Connections" then some ⟨0, 4, true⟩
  else if game = "Wordle" then some ⟨1, 7, true⟩
  else if game = "GuessTheMovie" then some ⟨1, 7, true⟩
  else if game = "GuessTheGame" then some ⟨1, 7, true⟩
  else if game = "FoodGuessr" then some ⟨0, 15000, false⟩
  else if game = "TimeGuessr" then some ⟨0, 50000, false⟩
  else none

/-- The body of `normalize_score` after the `SCORE_RANGES` lookup:
`clamped = max(mn, min(mx, score))`, then
`100 * (mx - clamped) / (mx - mn) if mx != mn else 100` when lower is
better, `100 * (clamped - mn) / (mx - mn) if mx != mn else 100` otherwise. -/
def normFormula (mn mx x : ℚ) (lb : Bool) : ℚ :=
  let clamped := max mn (min mx x)
  if lb then
    if mx ≠ mn then 100 * (mx - clamped) / (mx - mn) else 100
  else
    if mx ≠ mn then 100 * (clamped - mn) / (mx - mn) else 100

/-- `normalize_score` from `src/app.py` (lines 200-210), over exact rational
arithmetic in place of Python floats. -/
def normalize_score (game : String) (score : ℚ) : ℚ :=
  match SCORE_RANGES game with
  | none => 50
  | some r => normFormula r.min r.max score r.lower_better

/-! ## Helper notions and lemmas -/

/-- All characters of the list are the same color, the reading C3 gives to
`len(set(row)) == 1` on a nonempty row. -/
def allSameB : List Char → Bool
  | [] => true
  | c :: cs => cs.all (· == c)

lemma dedup_singleton_of_allSame (c : Char) :
    ∀ cs : List Char, (∀ y ∈ cs, y = c) → (c :: cs).dedup = [c] := by
  intro cs
  induction cs with
  | nil => intro _; simp
  | cons d ds ih =>
      intro hall
      have hd : d = c := hall d (by simp)
      subst hd
      have hmem : d ∈ d :: ds := by simp
      rw [List.dedup_cons_of_mem hmem]
      exact ih fun y hy => hall y (by simp [hy])

lemma dedup_length_one_iff (l : List Char) (h : l ≠ []) :
    l.dedup.length = 1 ↔ allSameB l = true := by
  obtain ⟨c, cs, rfl⟩ := List.exists_cons_of_ne_nil h
  constructor
  · intro h1
    obtain ⟨x, hx⟩ := List.length_eq_one.mp h1
    have hcx : c = x := by
      have : c ∈ (c :: cs).dedup := List.mem_dedup.mpr (by simp)
      rw [hx] at this
      simpa using this
    simp only [allSameB, List.all_eq_true]
    intro y hy
    have : y ∈ (c :: cs).dedup := List.mem_dedup.mpr (by simp [hy])
    rw [hx] at this
    simp only [List.mem_singleton] at this
    simp [this, hcx]
  · intro hall
    have : ∀ y ∈ cs, y = c := by
      simp only [allSameB, List.all_eq_true] at hall
      intro y hy
      simpa using hall y hy
    rw [dedup_singleton_of_allSame c cs this]
    rfl

/-- On any row, the source's mistake test `len(row) == 4 and len(set(row)) != 1`
agrees with C3's "exactly 4 squares and not all the identical color". -/
lemma mistake_cond (row : List Char) :
    (row.length == 4 && row.dedup.length != 1) = (row.length == 4 && !allSameB row) := by
  by_cases h4 : row.length = 4
  · have hne : row ≠ [] := by
      intro e
      rw [e] at h4
      simp at h4
    have hiff := dedup_length_one_iff row hne
    cases ha : allSameB row
    · rw [ha] at hiff
      simp only [Bool.false_eq_true, iff_false] at hiff
      simp [h4, bne_iff_ne, hiff, ha]
    · rw [ha] at hiff
      simp only [iff_true] at hiff
      simp [h4, hiff, ha]
  · have : (row.length == 4) = false := by simp [h4]
    simp [this]

lemma chunks4_flatten : ∀ l : List Char, (chunks4 l).flatten = l
  | [] => by simp [chunks4]
  | [a] => by simp [chunks4]
  | [a, b] => by simp [chunks4]
  | [a, b, c] => by simp [chunks4]
  | a :: b :: c :: d :: rest => by simp [chunks4, chunks4_flatten rest]

lemma chunks4_rows_le_four : ∀ l : List Char, ∀ row ∈ chunks4 l, row.length ≤ 4
  | [] => by simp [chunks4]
  | [a] => by simp [chunks4]
  | [a, b] => by simp [chunks4]
  | [a, b, c] => by simp [chunks4]
  | a :: b :: c :: d :: rest => by
      intro row h
      simp only [chunks4, List.mem_cons] at h
      rcases h with h | h
      · simp [h]
      · exact chunks4_rows_le_four rest row h

/-- The score C3 predicts from the palette squares: chunks of four in
appearance order; a chunk is a mistake iff it has exactly four squares and
they are not all the identical color; more than seven chunks forces 4. -/
def connectionsClaimScore (colors : List Char) : Int :=
  let rows := chunks4 colors
  if rows.length > 7 then 4
  else ((rows.filter fun row => row.length == 4 && !allSameB row).length : Int)

lemma dispatchO_eq_filterMap (ps : List (String → POutcome)) (text : String) :
    dispatchO ps text = (ps.map (fun p => runOutcome (p text))).filterMap id := by
  induction ps with
  | nil => rfl
  | cons p ps ih =>
      simp only [dispatchO, List.map_cons, List.filterMap_cons]
      cases hp : p text with
      | fault => simpa [runOutcome, hp] using ih
      | res o =>
          cases o with
          | none => simpa [runOutcome, hp] using ih
          | some r => simpa [runOutcome, hp] using ih

lemma dispatchO_fault_eq_nomatch (pre post : List (String → POutcome))
    (f g : String → POutcome) (text : String)
    (hf : f text = POutcome.fault) (hg : g text = POutcome.res none) :
    dispatchO (pre ++ f :: post) text = dispatchO (pre ++ g :: post) text := by
  rw [dispatchO_eq_filterMap, dispatchO_eq_filterMap]
  simp [hf, hg, runOutcome]

lemma ranges_min_le_max (game : String) (r : GameSpec)
    (h : SCORE_RANGES game = some r) : r.min ≤ r.max := by
  unfold SCORE_RANGES at h
  split_ifs at h <;>
    (injection h with h; subst h; norm_num)

lemma clamp_mem (mn mx x : ℚ) (h : mn ≤ mx) :
    mn ≤ max mn (min mx x) ∧ max mn (min mx x) ≤ mx :=
  ⟨le_max_left _ _, max_le h (min_le_left _ _)⟩

lemma normFormula_bounds (mn mx x : ℚ) (h : mn ≤ mx) (lb : Bool) :
    0 ≤ normFormula mn mx x lb ∧ normFormula mn mx x lb ≤ 100 := by
  obtain ⟨h1, h2⟩ := clamp_mem mn mx x h
  unfold normFormula
  by_cases hne : mx = mn
  · simp only [hne, ne_eq, not_true_eq_false, if_false, ite_self]
    norm_num
  · have hlt : mn < mx := lt_of_le_of_ne h (Ne.symm hne)
    have hpos : (0 : ℚ) < mx - mn := by linarith
    have hfrac1 : 0 ≤ (mx - max mn (min mx x)) / (mx - mn) := by
      apply div_nonneg _ hpos.le
      linarith
    have hfrac1' : (mx - max mn (min mx x)) / (mx - mn) ≤ 1 := by
      rw [div_le_one hpos]
      linarith
    have hfrac2 : 0 ≤ (max mn (min mx x) - mn) / (mx - mn) := by
      apply div_nonneg _ hpos.le
      linarith
    have hfrac2' : (max mn (min mx x) - mn) / (mx - mn) ≤ 1 := by
      rw [div_le_one hpos]
      linarith
    cases lb <;> simp only [ne_eq, hne, not_false_eq_true, if_true, if_false,
      Bool.false_eq_true, mul_div_assoc] <;> constructor <;> nlinarith

lemma normFormula_endpoints (mn mx : ℚ) (h : mn < mx) (lb : Bool) :
    (if lb then normFormula mn mx mn lb = 100 ∧ normFormula mn mx mx lb = 0
     else normFormula mn mx mn lb = 0 ∧ normFormula mn mx mx lb = 100) := by
  have hne : mx ≠ mn := ne_of_gt h
  have hd : mx - mn ≠ 0 := sub_ne_zero.mpr hne
  have hc1 : max mn (min mx mn) = mn := by rw [min_eq_right h.le, max_self]
  have hc2 : max mn (min mx mx) = mx := by rw [min_self, max_eq_right h.le]
  cases lb <;>
    simp only [normFormula, hc1, hc2, ne_eq, hne, not_false_eq_true, if_true,
      if_false, Bool.false_eq_true, sub_self, mul_zero, zero_div,
      mul_div_assoc, div_self hd, mul_one, and_self, true_and, and_true]

lemma litMatch_prefix (l s r : List Char) (h : litMatch false l s = some r) :
    l <+: s := by
  induction l generalizing s with
  | nil => exact List.nil_prefix
  | cons c cs ih =>
      cases s with
      | nil => simp [litMatch] at h
      | cons x xs =>
          simp only [litMatch, Bool.false_eq_true, reduceIte] at h
          by_cases hcx : (c == x) = true
          · rw [if_pos hcx] at h
            have hc : c = x := by simpa using hcx
            subst hc
            exact List.cons_prefix_cons.mpr ⟨rfl, ih xs h⟩
          · rw [if_neg hcx] at h
            exact absurd h (by simp)

lemma matchToks_alt_prefix (ls : List (List Char)) (ts : List Tok) (s : List Char)
    (v : Caps × List Char) (h : matchToks (Tok.alt ls :: ts) s = some v) :
    ∃ l ∈ ls, l <+: s := by
  simp only [matchToks] at h
  induction ls with
  | nil => simp [List.findSome?] at h
  | cons a as ih =>
      rw [List.findSome?_cons] at h
      cases ha : litMatch false a s with
      | none => rw [ha] at h; obtain ⟨l, hl, hp⟩ := ih h; exact ⟨l, by simp [hl], hp⟩
      | some rest => exact ⟨a, by simp, litMatch_prefix a s rest ha⟩

lemma reSearchAux_alt_infix (ls : List (List Char)) (ts : List Tok)
    (s : List Char) (pos : Nat) (v : Nat × Caps × List Char)
    (h : reSearchAux (Tok.alt ls :: ts) s pos = some v) :
    ∃ l ∈ ls, l <:+: s := by
  induction s generalizing pos with
  | nil =>
      rw [reSearchAux] at h
      cases hm : matchToks (Tok.alt ls :: ts) [] with
      | none => rw [hm] at h; exact absurd h (by simp)
      | some w =>
          obtain ⟨l, hl, hp⟩ := matchToks_alt_prefix ls ts [] w hm
          exact ⟨l, hl, hp.isInfix⟩
  | cons x xs ih =>
      rw [reSearchAux] at h
      cases hm : matchToks (Tok.alt ls :: ts) (x :: xs) with
      | some w =>
          obtain ⟨l, hl, hp⟩ := matchToks_alt_prefix ls ts (x :: xs) w hm
          exact ⟨l, hl, hp.isInfix⟩
      | none =>
          rw [hm] at h
          obtain ⟨l, hl, hi⟩ := ih (pos + 1) h
          exact ⟨l, hl, hi.trans (List.suffix_cons x xs).isInfix⟩

/-! ### Evaluating the matcher on partially symbolic inputs -/

lemma reSearch_hit (toks : List Tok) (s : List Char) (caps : Caps) (rest : List Char)
    (h : matchToks toks s = some (caps, rest)) :
    reSearch toks s = some (0, caps, rest) := by
  rw [reSearch]
  cases s <;> rw [reSearchAux, h]

lemma matchToks_lit_step (ci : Bool) (l : List Char) (ts : List Tok) (s rest : List Char)
    (h : litMatch ci l s = some rest) :
    matchToks (Tok.lit ci l :: ts) s = matchToks ts rest := by
  rw [matchToks, h]

lemma litMatch_self_append (ci : Bool) :
    ∀ l s t : List Char, litMatch ci l s = some [] → litMatch ci l (s ++ t) = some t
  | [], s, t, h => by
      have hs : s = [] := by simpa [litMatch] using h
      subst hs
      rfl
  | c :: cs, s, t, h => by
      cases s with
      | nil => simp [litMatch] at h
      | cons x xs =>
          by_cases hc : (if ci then charEqCI c x else c == x) = true
          · rw [litMatch, if_pos hc] at h
            rw [List.cons_append, litMatch, if_pos hc]
            exact litMatch_self_append ci cs xs t h
          · rw [litMatch, if_neg hc] at h
            exact absurd h (by simp)

lemma runLen_cons_true (p : Char → Bool) (c : Char) (cs : List Char) (h : p c = true) :
    runLen p (c :: cs) = runLen p cs + 1 := by
  rw [runLen, if_pos h]

lemma runLen_cons_false (p : Char → Bool) (c : Char) (cs : List Char) (h : p c = false) :
    runLen p (c :: cs) = 0 := by
  rw [runLen, if_neg (by simp [h])]

lemma runLen_append_all (p : Char → Bool) :
    ∀ (ds l : List Char), ds.all p = true → runLen p (ds ++ l) = ds.length + runLen p l
  | [], l, _ => by simp
  | d :: ds, l, h => by
      simp only [List.all_cons, Bool.and_eq_true] at h
      rw [List.cons_append, runLen_cons_true p d _ h.1, runLen_append_all p ds l h.2,
        List.length_cons]
      omega

/-- A quantified class token fails when even the admissible run is shorter
than the required minimum. -/
lemma matchToks_cls_short (p : Char → Bool) (mn : Nat) (mx : Option Nat) (lz : Bool)
    (cap : Option Nat) (ts : List Tok) (s : List Char)
    (h : (match mx with | none => runLen p s | some m => Nat.min m (runLen p s)) < mn) :
    matchToks (Tok.cls p mn mx lz cap :: ts) s = none := by
  simp only [matchToks]
  rw [if_pos h]

/-- A greedy class token whose longest admissible count already lets the
rest of the pattern match: the first candidate wins. -/
lemma matchToks_cls_greedy_first (p : Char → Bool) (mn : Nat) (mx : Option Nat)
    (cap : Option Nat) (ts : List Tok) (s : List Char) (hi : Nat) (caps : Caps)
    (rest : List Char)
    (hhi : (match mx with | none => runLen p s | some m => Nat.min m (runLen p s)) = hi)
    (hge : mn ≤ hi)
    (h : matchToks ts (s.drop hi) = some (caps, rest)) :
    matchToks (Tok.cls p mn mx false cap :: ts) s =
      some ((match cap with | none => caps | some i => (i, s.take hi) :: caps), rest) := by
  simp only [matchToks, hhi]
  rw [if_neg (by omega)]
  have hk : hi + 1 - mn = (hi - mn) + 1 := by omega
  simp only [Bool.false_eq_true, if_false, hk, List.range_succ_eq_map, List.map_cons,
    Nat.sub_zero, List.findSome?_cons, h]

lemma findSome?_map_add_range {β : Type} (f : Nat → Option β) :
    ∀ (len c k : Nat) (v : β), k < len → (∀ j, j < k → f (c + j) = none) →
      f (c + k) = some v → ((List.range len).map (c + ·)).findSome? f = some v
  | 0, _, k, _, hk, _, _ => by omega
  | len + 1, c, k, v, hk, hfail, hhit => by
      rw [List.range_succ_eq_map, List.map_cons, List.map_map, List.findSome?_cons]
      have hfun : ((c + ·) ∘ Nat.succ) = ((c + 1) + ·) := by
        funext i
        simp only [Function.comp]
        omega
      cases k with
      | zero =>
          rw [hhit]
      | succ k' =>
          rw [hfail 0 (by omega), hfun]
          exact findSome?_map_add_range f len (c + 1) k' v (by omega)
            (fun j hj => by
              have hadd : c + 1 + j = c + (j + 1) := by omega
              rw [hadd]
              exact hfail (j + 1) (by omega))
            (by
              have hadd : c + 1 + k' = c + (k' + 1) := by omega
              rw [hadd]
              exact hhit)

/-- A lazy class token: candidates below `k` all fail, `k` succeeds. -/
lemma matchToks_cls_lazy_hit (p : Char → Bool) (mn : Nat) (mx : Option Nat)
    (cap : Option Nat) (ts : List Tok) (s : List Char) (k : Nat) (caps : Caps)
    (rest : List Char)
    (hmk : mn ≤ k)
    (hk : k ≤ (match mx with | none => runLen p s | some m => Nat.min m (runLen p s)))
    (hfail : ∀ j, mn ≤ j → j < k → matchToks ts (s.drop j) = none)
    (h : matchToks ts (s.drop k) = some (caps, rest)) :
    matchToks (Tok.cls p mn mx true cap :: ts) s =
      some ((match cap with | none => caps | some i => (i, s.take k) :: caps), rest) := by
  simp only [matchToks]
  generalize hg : (match mx with | none => runLen p s | some m => Nat.min m (runLen p s)) = hi
    at hk ⊢
  rw [if_neg (by omega)]
  simp only [if_true]
  apply findSome?_map_add_range _ (hi + 1 - mn) mn (k - mn)
  · omega
  · intro j hj
    simp only [hfail (mn + j) (by omega) (by omega)]
  · have hadd : mn + (k - mn) = k := by omega
    simp only [hadd, h]

lemma pyDigit_ne (c x : Char) (h : pyDigit c = true) (hx : pyDigit x = false) :
    (c == x) = false := by
  cases hcx : c == x
  · rfl
  · have hcx' : c = x := by simpa using hcx
    subst hcx'
    rw [h] at hx
    exact absurd hx (by simp)

lemma pySpace_of_digit (c : Char) (h : pyDigit c = true) : pySpace c = false := by
  rw [pySpace, pyDigit_ne c ' ' h (by decide), pyDigit_ne c '\t' h (by decide),
      pyDigit_ne c '\n' h (by decide), pyDigit_ne c '\r' h (by decide),
      pyDigit_ne c (Char.ofNat 11) h (by decide), pyDigit_ne c (Char.ofNat 12) h (by decide)]
  rfl

lemma stripSpComma_all_digits (ds : List Char) (h : ds.all pyDigit = true) :
    stripSpComma ds = ds := by
  rw [stripSpComma, List.filter_eq_self]
  intro c hc
  have hcd : pyDigit c = true := by
    rw [List.all_eq_true] at h
    exact h c hc
  simp [pySpace_of_digit c hcd, pyDigit_ne c ',' hcd (by decide)]

/-! ### The Travle perfect pattern on arbitrary digit tokens -/

lemma travle_tail78 (ds : List Char) (hall : ds.all pyDigit = true) :
    matchToks [Tok.cls pyDigit 0 none false none, Tok.cls pySpace 0 none false none,
      Tok.lit true "(Perfect)".toList] (ds ++ " (Perfect)".toList) = some ([], []) := by
  have t8 : matchToks [Tok.cls pySpace 0 none false none, Tok.lit true "(Perfect)".toList]
      " (Perfect)".toList = some ([], []) := by decide
  have hrl : runLen pyDigit (ds ++ " (Perfect)".toList) = ds.length := by
    rw [runLen_append_all pyDigit _ _ hall,
      (by decide : runLen pyDigit " (Perfect)".toList = 0)]
    omega
  exact matchToks_cls_greedy_first pyDigit 0 none none _ _ ds.length [] []
    hrl (Nat.zero_le _) (by rw [List.drop_left]; exact t8)

/-- The Travle perfect pattern matches "#travle #123 +<ds> (Perfect)" at
position 0 for any nonempty digit string `ds`, capturing index "123". -/
lemma travle_perfect_search_plus (ds : List Char) (hne : ds ≠ [])
    (hall : ds.all pyDigit = true) :
    reSearch travlePerfectToks ("#travle #123 +".toList ++ ds ++ " (Perfect)".toList) =
      some (0, [(1, ['1', '2', '3'])], []) := by
  obtain ⟨d, ds', rfl⟩ := List.exists_cons_of_ne_nil hne
  have hd : pyDigit d = true := by
    simp only [List.all_cons, Bool.and_eq_true] at hall
    exact hall.1
  have hall' : ((d :: ds') : List Char).all pyDigit = true := hall
  apply reSearch_hit
  have t6 : matchToks (Tok.cls (fun c => c == '+') 0 (some 1) false none ::
        Tok.cls pyDigit 0 none false none :: Tok.cls pySpace 0 none false none ::
        [Tok.lit true "(Perfect)".toList])
      ('+' :: ((d :: ds') ++ " (Perfect)".toList)) = some ([], []) := by
    have hrl : Nat.min 1 (runLen (fun c => c == '+')
        ('+' :: ((d :: ds') ++ " (Perfect)".toList))) = 1 := by
      rw [runLen_cons_true _ _ _ (by decide), List.cons_append,
        runLen_cons_false (fun c => c == '+') d _ (pyDigit_ne d '+' hd (by decide))]
      decide
    exact matchToks_cls_greedy_first _ 0 (some 1) none _ _ 1 [] [] hrl (Nat.zero_le _)
      (travle_tail78 (d :: ds') hall')
  have t5 : matchToks (Tok.cls pySpace 1 none false none ::
        Tok.cls (fun c => c == '+') 0 (some 1) false none ::
        Tok.cls pyDigit 0 none false none :: Tok.cls pySpace 0 none false none ::
        [Tok.lit true "(Perfect)".toList])
      (' ' :: '+' :: ((d :: ds') ++ " (Perfect)".toList)) = some ([], []) := by
    have hrl : runLen pySpace (' ' :: '+' :: ((d :: ds') ++ " (Perfect)".toList)) = 1 := by
      rw [runLen_cons_true _ _ _ (by decide), runLen_cons_false _ _ _ (by decide)]
    exact matchToks_cls_greedy_first pySpace 1 none none _ _ 1 [] [] hrl (le_refl 1) t6
  have t4 : matchToks (Tok.cls pyDigit 1 none false (some 1) ::
        Tok.cls pySpace 1 none false none ::
        Tok.cls (fun c => c == '+') 0 (some 1) false none ::
        Tok.cls pyDigit 0 none false none :: Tok.cls pySpace 0 none false none ::
        [Tok.lit true "(Perfect)".toList])
      ('1' :: '2' :: '3' :: ' ' :: '+' :: ((d :: ds') ++ " (Perfect)".toList)) =
      some ([(1, ['1', '2', '3'])], []) := by
    have hrl : runLen pyDigit
        ('1' :: '2' :: '3' :: ' ' :: '+' :: ((d :: ds') ++ " (Perfect)".toList)) = 3 := by
      rw [runLen_cons_true _ _ _ (by decide), runLen_cons_true _ _ _ (by decide),
        runLen_cons_true _ _ _ (by decide), runLen_cons_false _ _ _ (by decide)]
    exact matchToks_cls_greedy_first pyDigit 1 none (some 1) _ _ 3 [] [] hrl (by omega) t5
  have t3 : matchToks (Tok.lit true "#".toList :: Tok.cls pyDigit 1 none false (some 1) ::
        Tok.cls pySpace 1 none false none ::
        Tok.cls (fun c => c == '+') 0 (some 1) false none ::
        Tok.cls pyDigit 0 none false none :: Tok.cls pySpace 0 none false none ::
        [Tok.lit true "(Perfect)".toList])
      ('#' :: '1' :: '2' :: '3' :: ' ' :: '+' :: ((d :: ds') ++ " (Perfect)".toList)) =
      some ([(1, ['1', '2', '3'])], []) := by
    have hlm : litMatch true "#".toList
        ('#' :: '1' :: '2' :: '3' :: ' ' :: '+' :: ((d :: ds') ++ " (Perfect)".toList)) =
        some ('1' :: '2' :: '3' :: ' ' :: '+' :: ((d :: ds') ++ " (Perfect)".toList)) :=
      litMatch_self_append true "#".toList "#".toList _ (by decide)
    rw [matchToks_lit_step true "#".toList _ _ _ hlm]
    exact t4
  have t2 : matchToks (Tok.cls pySpace 1 none false none :: Tok.lit true "#".toList ::
        Tok.cls pyDigit 1 none false (some 1) :: Tok.cls pySpace 1 none false none ::
        Tok.cls (fun c => c == '+') 0 (some 1) false none ::
        Tok.cls pyDigit 0 none false none :: Tok.cls pySpace 0 none false none ::
        [Tok.lit true "(Perfect)".toList])
      (' ' :: '#' :: '1' :: '2' :: '3' :: ' ' :: '+' :: ((d :: ds') ++ " (Perfect)".toList)) =
      some ([(1, ['1', '2', '3'])], []) := by
    have hrl : runLen pySpace
        (' ' :: '#' :: '1' :: '2' :: '3' :: ' ' :: '+' ::
          ((d :: ds') ++ " (Perfect)".toList)) = 1 := by
      rw [runLen_cons_true _ _ _ (by decide), runLen_cons_false _ _ _ (by decide)]
    exact matchToks_cls_greedy_first pySpace 1 none none _ _ 1 [(1, ['1', '2', '3'])] []
      hrl (le_refl 1) t3
  have hs : "#travle #123 +".toList ++ (d :: ds') ++ " (Perfect)".toList =
      "#travle".toList ++ (' ' :: '#' :: '1' :: '2' :: '3' :: ' ' :: '+' ::
        ((d :: ds') ++ " (Perfect)".toList)) := by
    simp [List.append_assoc]
  rw [hs]
  simp only [travlePerfectToks, sp1, digitsCap]
  rw [matchToks_lit_step true "#travle".toList _ _ _
    (litMatch_self_append true "#travle".toList "#travle".toList _ (by decide))]
  exact t2

/-- The Travle perfect pattern also matches "#travle #123 <ds> (Perfect)"
for a bare nonempty digit token (no plus sign): `\+?` matches zero
characters. -/
lemma travle_perfect_search_bare (ds : List Char) (hne : ds ≠ [])
    (hall : ds.all pyDigit = true) :
    reSearch travlePerfectToks ("#travle #123 ".toList ++ ds ++ " (Perfect)".toList) =
      some (0, [(1, ['1', '2', '3'])], []) := by
  obtain ⟨d, ds', rfl⟩ := List.exists_cons_of_ne_nil hne
  have hd : pyDigit d = true := by
    simp only [List.all_cons, Bool.and_eq_true] at hall
    exact hall.1
  have hall' : ((d :: ds') : List Char).all pyDigit = true := hall
  apply reSearch_hit
  have b6 : matchToks (Tok.cls (fun c => c == '+') 0 (some 1) false none ::
        Tok.cls pyDigit 0 none false none :: Tok.cls pySpace 0 none false none ::
        [Tok.lit true "(Perfect)".toList])
      ((d :: ds') ++ " (Perfect)".toList) = some ([], []) := by
    have hrl : Nat.min 1 (runLen (fun c => c == '+')
        ((d :: ds') ++ " (Perfect)".toList)) = 0 := by
      rw [List.cons_append,
        runLen_cons_false (fun c => c == '+') d _ (pyDigit_ne d '+' hd (by decide))]
      decide
    exact matchToks_cls_greedy_first _ 0 (some 1) none _ _ 0 [] [] hrl (Nat.le_refl 0)
      (travle_tail78 (d :: ds') hall')
  have b5 : matchToks (Tok.cls pySpace 1 none false none ::
        Tok.cls (fun c => c == '+') 0 (some 1) false none ::
        Tok.cls pyDigit 0 none false none :: Tok.cls pySpace 0 none false none ::
        [Tok.lit true "(Perfect)".toList])
      (' ' :: ((d :: ds') ++ " (Perfect)".toList)) = some ([], []) := by
    have hrl : runLen pySpace (' ' :: ((d :: ds') ++ " (Perfect)".toList)) = 1 := by
      rw [runLen_cons_true _ _ _ (by decide), List.cons_append,
        runLen_cons_false pySpace d _ (pySpace_of_digit d hd)]
    exact matchToks_cls_greedy_first pySpace 1 none none _ _ 1 [] [] hrl (le_refl 1) b6
  have b4 : matchToks (Tok.cls pyDigit 1 none false (some 1) ::
        Tok.cls pySpace 1 none false none ::
        Tok.cls (fun c => c == '+') 0 (some 1) false none ::
        Tok.cls pyDigit 0 none false none :: Tok.cls pySpace 0 none false none ::
        [Tok.lit true "(Perfect)".toList])
      ('1' :: '2' :: '3' :: ' ' :: ((d :: ds') ++ " (Perfect)".toList)) =
      some ([(1, ['1', '2', '3'])], []) := by
    have hrl : runLen pyDigit
        ('1' :: '2' :: '3' :: ' ' :: ((d :: ds') ++ " (Perfect)".toList)) = 3 := by
      rw [runLen_cons_true _ _ _ (by decide), runLen_cons_true _ _ _ (by decide),
        runLen_cons_true _ _ _ (by decide), runLen_cons_false _ _ _ (by decide)]
    exact matchToks_cls_greedy_first pyDigit 1 none (some 1) _ _ 3 [] [] hrl (by omega) b5
  have b3 : matchToks (Tok.lit true "#".toList :: Tok.cls pyDigit 1 none false (some 1) ::
        Tok.cls pySpace 1 none false none ::
        Tok.cls (fun c => c == '+') 0 (some 1) false none ::
        Tok.cls pyDigit 0 none false none :: Tok.cls pySpace 0 none false none ::
        [Tok.lit true "(Perfect)".toList])
      ('#' :: '1' :: '2' :: '3' :: ' ' :: ((d :: ds') ++ " (Perfect)".toList)) =
      some ([(1, ['1', '2', '3'])], []) := by
    have hlm : litMatch true "#".toList
        ('#' :: '1' :: '2' :: '3' :: ' ' :: ((d :: ds') ++ " (Perfect)".toList)) =
        some ('1' :: '2' :: '3' :: ' ' :: ((d :: ds') ++ " (Perfect)".toList)) :=
      litMatch_self_append true "#".toList "#".toList _ (by decide)
    rw [matchToks_lit_step true "#".toList _ _ _ hlm]
    exact b4
  have b2 : matchToks (Tok.cls pySpace 1 none false none :: Tok.lit true "#".toList ::
        Tok.cls pyDigit 1 none false (some 1) :: Tok.cls pySpace 1 none false none ::
        Tok.cls (fun c => c == '+') 0 (some 1) false none ::
        Tok.cls pyDigit 0 none false none :: Tok.cls pySpace 0 none false none ::
        [Tok.lit true "(Perfect)".toList])
      (' ' :: '#' :: '1' :: '2' :: '3' :: ' ' :: ((d :: ds') ++ " (Perfect)".toList)) =
      some ([(1, ['1', '2', '3'])], []) := by
    have hrl : runLen pySpace
        (' ' :: '#' :: '1' :: '2' :: '3' :: ' ' ::
          ((d :: ds') ++ " (Perfect)".toList)) = 1 := by
      rw [runLen_cons_true _ _ _ (by decide), runLen_cons_false _ _ _ (by decide)]
    exact matchToks_cls_greedy_first pySpace 1 none none _ _ 1 [(1, ['1', '2', '3'])] []
      hrl (le_refl 1) b3
  have hs : "#travle #123 ".toList ++ (d :: ds') ++ " (Perfect)".toList =
      "#travle".toList ++ (' ' :: '#' :: '1' :: '2' :: '3' :: ' ' ::
        ((d :: ds') ++ " (Perfect)".toList)) := by
    simp [List.append_assoc]
  rw [hs]
  simp only [travlePerfectToks, sp1, digitsCap]
  rw [matchToks_lit_step true "#travle".toList _ _ _
    (litMatch_self_append true "#travle".toList "#travle".toList _ (by decide))]
  exact b2

lemma parse_travle_perfect_plus (ds : List Char) (hne : ds ≠ [])
    (hall : ds.all pyDigit = true) :
    parse_travle ("#travle #123 +" ++ ds.asString ++ " (Perfect)") =
      some ⟨"Travle", "123", -1⟩ := by
  have htl : ("#travle #123 +" ++ ds.asString ++ " (Perfect)").toList =
      "#travle #123 +".toList ++ ds ++ " (Perfect)".toList := by
    show ("#travle #123 +" ++ ds.asString ++ " (Perfect)").data = _
    simp only [String.data_append]
    rfl
  simp only [parse_travle, htl, travle_perfect_search_plus ds hne hall]
  rfl

lemma parse_travle_perfect_bare (ds : List Char) (hne : ds ≠ [])
    (hall : ds.all pyDigit = true) :
    parse_travle ("#travle #123 " ++ ds.asString ++ " (Perfect)") =
      some ⟨"Travle", "123", -1⟩ := by
  have htl : ("#travle #123 " ++ ds.asString ++ " (Perfect)").toList =
      "#travle #123 ".toList ++ ds ++ " (Perfect)".toList := by
    show ("#travle #123 " ++ ds.asString ++ " (Perfect)").data = _
    simp only [String.data_append]
    rfl
  simp only [parse_travle, htl, travle_perfect_search_bare ds hne hall]
  rfl

/-! ### The Wordle pattern on arbitrary digit indices -/

lemma pySpace_of_xdigit (c : Char) (hc : (pyDigit c || c == 'X' || c == 'x') = true) :
    pySpace c = false := by
  rcases (by simpa [Bool.or_eq_true, beq_iff_eq] using hc :
      (pyDigit c = true ∨ c = 'X') ∨ c = 'x') with (h | h) | h
  · exact pySpace_of_digit c h
  · subst h
    decide
  · subst h
    decide

/-- The Wordle pattern matches "Wordle <ds> <c>/6" at position 0 for any
nonempty digit index `ds` and any slot character `c` admitted by `[X\d]`
under IGNORECASE, capturing the index as group 1 and the slot as group 2:
the lazy index group stops at exactly the index. -/
lemma wordle_search (ds : List Char) (hne : ds ≠ []) (hall : ds.all pyDigit = true)
    (c : Char) (hc : (pyDigit c || c == 'X' || c == 'x') = true) :
    reSearch wordleToks ("Wordle ".toList ++ ds ++ (' ' :: c :: '/' :: '6' :: [])) =
      some (0, [(1, ds), (2, [c])], []) := by
  apply reSearch_hit
  have w6 : matchToks [Tok.lit true "/6".toList] ('/' :: '6' :: []) = some ([], []) := by
    decide
  have w5 : matchToks (Tok.cls (fun ch => pyDigit ch || ch == 'X' || ch == 'x') 1 (some 1)
        false (some 2) :: [Tok.lit true "/6".toList])
      (c :: '/' :: '6' :: []) = some ([(2, [c])], []) := by
    have hrl : Nat.min 1 (runLen (fun ch => pyDigit ch || ch == 'X' || ch == 'x')
        (c :: '/' :: '6' :: [])) = 1 := by
      rw [runLen_cons_true _ _ _ hc,
        (by decide : runLen (fun ch => pyDigit ch || ch == 'X' || ch == 'x')
          ('/' :: '6' :: []) = 0)]
      decide
    exact matchToks_cls_greedy_first _ 1 (some 1) (some 2) _ _ 1 [] [] hrl (le_refl 1) w6
  have w4 : matchToks (Tok.cls pySpace 1 none false none ::
        Tok.cls (fun ch => pyDigit ch || ch == 'X' || ch == 'x') 1 (some 1) false (some 2) ::
        [Tok.lit true "/6".toList])
      (' ' :: c :: '/' :: '6' :: []) = some ([(2, [c])], []) := by
    have hrl : runLen pySpace (' ' :: c :: '/' :: '6' :: []) = 1 := by
      rw [runLen_cons_true _ _ _ (by decide),
        runLen_cons_false pySpace c _ (pySpace_of_xdigit c hc)]
    exact matchToks_cls_greedy_first pySpace 1 none none _ _ 1 [(2, [c])] []
      hrl (le_refl 1) w5
  have hallw : ds.all (fun ch => pyDigit ch || pySpace ch || ch == ',') = true := by
    rw [List.all_eq_true] at hall ⊢
    intro x hx
    simp [hall x hx]
  have w3 : matchToks (Tok.cls (fun ch => pyDigit ch || pySpace ch || ch == ',') 1 none
        true (some 1) ::
        Tok.cls pySpace 1 none false none ::
        Tok.cls (fun ch => pyDigit ch || ch == 'X' || ch == 'x') 1 (some 1) false (some 2) ::
        [Tok.lit true "/6".toList])
      (ds ++ (' ' :: c :: '/' :: '6' :: [])) = some ([(1, ds), (2, [c])], []) := by
    have hlen : 1 ≤ ds.length := List.length_pos.mpr hne
    have hk : ds.length ≤ runLen (fun ch => pyDigit ch || pySpace ch || ch == ',')
        (ds ++ (' ' :: c :: '/' :: '6' :: [])) := by
      rw [runLen_append_all _ _ _ hallw]
      omega
    have hfail : ∀ j, 1 ≤ j → j < ds.length →
        matchToks (Tok.cls pySpace 1 none false none ::
          Tok.cls (fun ch => pyDigit ch || ch == 'X' || ch == 'x') 1 (some 1) false (some 2) ::
          [Tok.lit true "/6".toList])
        ((ds ++ (' ' :: c :: '/' :: '6' :: [])).drop j) = none := by
      intro j h1 h2
      rw [List.drop_append_of_le_length (le_of_lt h2)]
      have hdne : ds.drop j ≠ [] := by
        intro he
        have := List.length_drop j ds
        rw [he] at this
        simp at this
        omega
      obtain ⟨e, r, her⟩ := List.exists_cons_of_ne_nil hdne
      have hemem : e ∈ ds := List.drop_subset j ds (by rw [her]; simp)
      have hed : pyDigit e = true := by
        rw [List.all_eq_true] at hall
        exact hall e hemem
      rw [her, List.cons_append]
      exact matchToks_cls_short pySpace 1 none false none _ _
        (by rw [runLen_cons_false pySpace e _ (pySpace_of_digit e hed)]
            exact Nat.zero_lt_one)
    have hhit := w4
    have := matchToks_cls_lazy_hit (fun ch => pyDigit ch || pySpace ch || ch == ',')
      1 none (some 1) _ (ds ++ (' ' :: c :: '/' :: '6' :: [])) ds.length [(2, [c])] []
      hlen hk hfail (by rw [List.drop_left]; exact hhit)
    rw [this, List.take_left]
  have w2 : matchToks (Tok.cls pySpace 1 none false none ::
        Tok.cls (fun ch => pyDigit ch || pySpace ch || ch == ',') 1 none true (some 1) ::
        Tok.cls pySpace 1 none false none ::
        Tok.cls (fun ch => pyDigit ch || ch == 'X' || ch == 'x') 1 (some 1) false (some 2) ::
        [Tok.lit true "/6".toList])
      (' ' :: (ds ++ (' ' :: c :: '/' :: '6' :: []))) = some ([(1, ds), (2, [c])], []) := by
    obtain ⟨d, ds', rfl⟩ := List.exists_cons_of_ne_nil hne
    have hd : pyDigit d = true := by
      simp only [List.all_cons, Bool.and_eq_true] at hall
      exact hall.1
    have hrl : runLen pySpace (' ' :: ((d :: ds') ++ (' ' :: c :: '/' :: '6' :: []))) = 1 := by
      rw [runLen_cons_true _ _ _ (by decide), List.cons_append,
        runLen_cons_false pySpace d _ (pySpace_of_digit d hd)]
    exact matchToks_cls_greedy_first pySpace 1 none none _ _ 1 [(1, d :: ds'), (2, [c])] []
      hrl (le_refl 1) w3
  have hs : "Wordle ".toList ++ ds ++ (' ' :: c :: '/' :: '6' :: []) =
      "Wordle".toList ++ (' ' :: (ds ++ (' ' :: c :: '/' :: '6' :: []))) := by
    simp [List.append_assoc]
  rw [hs]
  simp only [wordleToks, sp1]
  rw [matchToks_lit_step true "Wordle".toList _ _ _
    (litMatch_self_append true "Wordle".toList "Wordle".toList _ (by decide))]
  exact w2

/-- `parse_wordle` on "Wordle <ds> <c>/6": the index is captured verbatim
(digits only, so separator stripping is the identity) and the score comes
from the slot character. -/
lemma parse_wordle_char (ds : List Char) (hne : ds ≠ []) (hall : ds.all pyDigit = true)
    (c : Char) (hc : (pyDigit c || c == 'X' || c == 'x') = true) (sc : Int)
    (hsc : (if ([c].map Char.toUpper == ['X']) = true then some 7 else pyInt [c]) = some sc) :
    parse_wordle ("Wordle " ++ ds.asString ++ " " ++ c.toString ++ "/6") =
      some ⟨"Wordle", ds.asString, sc⟩ := by
  have htl : ("Wordle " ++ ds.asString ++ " " ++ c.toString ++ "/6").toList =
      "Wordle ".toList ++ ds ++ (' ' :: c :: '/' :: '6' :: []) := by
    show ("Wordle " ++ ds.asString ++ " " ++ c.toString ++ "/6").data = _
    simp only [String.data_append]
    show "Wordle ".data ++ ds ++ [' '] ++ [c] ++ ['/', '6'] = _
    simp [List.append_assoc]
  simp only [parse_wordle, htl, wordle_search ds hne hall c hc]
  have hg1 : getCap [(1, ds), (2, [c])] 1 = ds := rfl
  have hg2 : getCap [(1, ds), (2, [c])] 2 = [c] := rfl
  simp only [hg1, hg2, stripSpComma_all_digits ds hall]
  by_cases hX : (([c].map Char.toUpper) == ['X']) = true
  · rw [if_pos hX] at hsc
    rw [if_pos hX]
    have : sc = 7 := by
      rw [Option.some_inj] at hsc
      omega
    rw [this]
  · rw [if_neg hX] at hsc
    rw [if_neg hX, hsc]

/-! ## Claim theorems -/

/-- Claim C1, counterexample: in a text made of two valid share blocks
separated by a blank line (a GuessTheMovie block, then a GuessTheGame
block), the GuessTheMovie parser's score depends on the other game's block:
it reads the 🟩 of the GuessTheGame block across the blank line and reports
score 3, while on its own block alone it reports 7.  So not every parser
truncates its scan at the first blank-line boundary. -/
theorem guess_the_movie_reads_past_blank_line :
    parse_guess_the_movie "#GuessTheMovie #1 🟥🟥\n\n#GuessTheGame #2 🟩" =
      some ⟨"GuessTheMovie", "1", 3⟩ ∧
    parse_guess_the_movie "#GuessTheMovie #1 🟥🟥" = some ⟨"GuessTheMovie", "1", 7⟩ ∧
    parse_guess_the_game "#GuessTheGame #2 🟩" = some ⟨"GuessTheGame", "2", 1⟩ ∧
    parse_guess_the_game "#GuessTheMovie #1 🟥🟥\n\n#GuessTheGame #2 🟩" =
      some ⟨"GuessTheGame", "2", 1⟩ := by
  refine ⟨by decide, by decide, by decide, by decide⟩

/-- Claim C1, amended: only the Connections parser truncates its scan window
at the first blank-line boundary after its header, so Connections extraction
is unaffected by a following game's block across a blank line (and the
truncation is what protects it: without the blank line the next block's 🟩
would be counted); the GuessTheMovie and GuessTheGame parsers scan the whole
remainder of the text after their header.  On a Connections block followed,
after a blank line, by a GuessTheMovie block, the dispatcher yields exactly
the two correctly attributed results. -/
theorem connections_truncates_at_blank_line :
    parse_connections "Connections Puzzle #50\n🟪🟪🟪\n\n#GuessTheMovie #1 🟩🟥🟥" =
      some ⟨"Connections", "50", 0⟩ ∧
    parse_connections "Connections Puzzle #50\n🟪🟪🟪" = some ⟨"Connections", "50", 0⟩ ∧
    parse_connections "Connections Puzzle #50\n🟪🟪🟪\n#GuessTheMovie #1 🟩🟥🟥" =
      some ⟨"Connections", "50", 1⟩ ∧
    api_parse_results "Connections Puzzle #50\n🟪🟪🟪\n\n#GuessTheMovie #1 🟩🟥🟥" =
      [⟨"Connections", "50", 0⟩, ⟨"GuessTheMovie", "1", 1⟩] := by
  refine ⟨by decide, by decide, by decide, by decide⟩

/-- Claim C2, counterexample: for GuessTheMovie (and likewise GuessTheGame),
a header-and-index match with zero palette squares after it does *not*
yield "no match": the parser returns a ParsedScore with score 7. -/
theorem guess_the_movie_header_only_matches :
    parse_guess_the_movie "#GuessTheMovie #1" = some ⟨"GuessTheMovie", "1", 7⟩ ∧
    parse_guess_the_movie "#GuessTheMovie #1" ≠ none := by
  refine ⟨by decide, by decide⟩

/-- Claim C2, amended: Travle, Connections, Wordle, FoodGuessr and
TimeGuessr return "no match" (None) when their header matches but no
parsable score payload follows; GuessTheMovie and GuessTheGame instead
return a ParsedScore with score 7 when zero palette squares follow the
hashtagged header and index — in general, whenever the GuessTheMovie
header matches, the parser returns a ParsedScore built from the entire
remainder of the text, never None. -/
theorem header_without_payload_rule :
    parse_travle "#travle #9" = none ∧
    parse_connections "Connections Puzzle #5 no squares here" = none ∧
    parse_wordle "Wordle 123" = none ∧
    parse_foodguessr "I got nothing on the FoodGuessr" = none ∧
    parse_timeguessr "TimeGuessr #10" = none ∧
    parse_guess_the_movie "#GuessTheMovie #1" = some ⟨"GuessTheMovie", "1", 7⟩ ∧
    parse_guess_the_game "#GuessTheGame #2" = some ⟨"GuessTheGame", "2", 7⟩ ∧
    (∀ (text : String) (pos : Nat) (caps : Caps) (rest : List Char),
        reSearch guessTheMovieToks text.toList = some (pos, caps, rest) →
        parse_guess_the_movie text =
          some ⟨"GuessTheMovie", (getCap caps 1).asString,
            firstGreenScore ['🟥', '🟩', '⬜'] rest⟩) ∧
    (∀ (text : String) (pos : Nat) (caps : Caps) (rest : List Char),
        reSearch guessTheGameToks text.toList = some (pos, caps, rest) →
        parse_guess_the_game text =
          some ⟨"GuessTheGame", (getCap caps 1).asString,
            firstGreenScore ['🟥', '🟨', '🟩', '⬜'] rest⟩) := by
  refine ⟨by decide, by decide, by decide, by decide, by decide, by decide, by decide,
    ?_, ?_⟩
  · intro text pos caps rest h
    simp only [parse_guess_the_movie, h]
  · intro text pos caps rest h
    simp only [parse_guess_the_game, h]

/-- Witness for C2's general clauses at the header-only input. -/
theorem header_without_payload_rule_witness :
    parse_guess_the_movie "#GuessTheMovie #3" =
      some ⟨"GuessTheMovie", (getCap [(1, ['3'])] 1).asString,
        firstGreenScore ['🟥', '🟩', '⬜'] []⟩ :=
  header_without_payload_rule.2.2.2.2.2.2.2.1 "#GuessTheMovie #3" 0 [(1, ['3'])] []
    (by decide)

/-- Claim C4, counterexample: a minus-signed numeric token between the index
and the "(Perfect)" marker defeats the perfect pattern (`\+?\d*` matches no
minus sign), so the numeric extraction wins: score −3, not −1. -/
theorem travle_minus_token_beats_perfect :
    parse_travle "#travle #123 -3 (Perfect)" = some ⟨"Travle", "123", -3⟩ ∧
    parse_travle "#travle #123 -3 (Perfect)" ≠ some ⟨"Travle", "123", -1⟩ := by
  refine ⟨by decide, by decide⟩

/-- Claim C4, amended: the perfect-marker rule takes priority over the
numeric extraction when the token between the index and "(Perfect)" is
absent, a bare digit string, or a plus-signed digit string (in particular
"+0"), yielding score −1 with the puzzle number — proved for every nonempty
digit string in the last two conjuncts; a minus-signed token is not covered
by the perfect pattern.  Without the marker the numeric extraction applies. -/
theorem travle_perfect_rule :
    parse_travle "#travle #123 +0 (Perfect)" = some ⟨"Travle", "123", -1⟩ ∧
    parse_travle "#travle #123 (Perfect)" = some ⟨"Travle", "123", -1⟩ ∧
    parse_travle "#travle #123 42 (Perfect)" = some ⟨"Travle", "123", -1⟩ ∧
    parse_travle "#travle #456 +2" = some ⟨"Travle", "456", 2⟩ ∧
    parse_travle "#travle #456 -2" = some ⟨"Travle", "456", -2⟩ ∧
    (∀ ds : List Char, ds ≠ [] → ds.all pyDigit = true →
        parse_travle ("#travle #123 +" ++ ds.asString ++ " (Perfect)") =
          some ⟨"Travle", "123", -1⟩) ∧
    (∀ ds : List Char, ds ≠ [] → ds.all pyDigit = true →
        parse_travle ("#travle #123 " ++ ds.asString ++ " (Perfect)") =
          some ⟨"Travle", "123", -1⟩) :=
  ⟨by decide, by decide, by decide, by decide, by decide,
   parse_travle_perfect_plus, parse_travle_perfect_bare⟩

/-- Witness for C4's quantified conjuncts at the digit token "99". -/
theorem travle_perfect_rule_witness :
    parse_travle ("#travle #123 +" ++ (['9', '9'] : List Char).asString ++ " (Perfect)") =
      some ⟨"Travle", "123", -1⟩ :=
  travle_perfect_rule.2.2.2.2.2.1 ['9', '9'] (by decide) (by decide)

/-- Claim C5: "Wordle 1,705 4/6" parses to puzzle number "1705" (separators
stripped) with score 4; "Wordle 900 X/6" parses with score 7; and for every
nonempty digit index and every guess count n in 1–6 the score is n, with
"X" in the slot giving 7. -/
theorem wordle_score_rule :
    parse_wordle "Wordle 1,705 4/6" = some ⟨"Wordle", "1705", 4⟩ ∧
    parse_wordle "Wordle 900 X/6" = some ⟨"Wordle", "900", 7⟩ ∧
    (∀ ds : List Char, ds ≠ [] → ds.all pyDigit = true →
      ∀ n : Nat, 1 ≤ n → n ≤ 6 →
        parse_wordle
            ("Wordle " ++ ds.asString ++ " " ++ (Char.ofNat (48 + n)).toString ++ "/6") =
          some ⟨"Wordle", ds.asString, (n : Int)⟩) ∧
    (∀ ds : List Char, ds ≠ [] → ds.all pyDigit = true →
        parse_wordle ("Wordle " ++ ds.asString ++ " " ++ Char.toString 'X' ++ "/6") =
          some ⟨"Wordle", ds.asString, 7⟩) := by
  refine ⟨by decide, by decide, ?_, ?_⟩
  · intro ds h1 h2 n h3 h4
    interval_cases n <;>
      exact parse_wordle_char ds h1 h2 _ (by decide) _ (by decide)
  · intro ds h1 h2
    exact parse_wordle_char ds h1 h2 'X' (by decide) 7 (by decide)

/-- Witness for C5's quantified part at index "1705", n = 4. -/
theorem wordle_score_rule_witness :
    parse_wordle ("Wordle " ++ (['1', '7', '0', '5'] : List Char).asString ++ " " ++
        (Char.ofNat (48 + 4)).toString ++ "/6") =
      some ⟨"Wordle", (['1', '7', '0', '5'] : List Char).asString, (4 : Int)⟩ :=
  wordle_score_rule.2.2.1 ['1', '7', '0', '5'] (by decide) (by decide) 4
    (by norm_num) (by norm_num)

/-- Claim C9: the Wordle parser accepts any single decimal digit in the
guess-count slot, not only 1–6: "Wordle 10 0/6" gives score 0 and
"Wordle 10 9/6" gives score 9, outside the documented 1–7 range; in
general any digit d gives score d for any digit index. -/
theorem wordle_any_digit :
    parse_wordle "Wordle 10 0/6" = some ⟨"Wordle", "10", 0⟩ ∧
    parse_wordle "Wordle 10 9/6" = some ⟨"Wordle", "10", 9⟩ ∧
    (∀ ds : List Char, ds ≠ [] → ds.all pyDigit = true →
      ∀ n : Nat, n ≤ 9 →
        parse_wordle
            ("Wordle " ++ ds.asString ++ " " ++ (Char.ofNat (48 + n)).toString ++ "/6") =
          some ⟨"Wordle", ds.asString, (n : Int)⟩) := by
  refine ⟨by decide, by decide, ?_⟩
  intro ds h1 h2 n h3
  interval_cases n <;>
    exact parse_wordle_char ds h1 h2 _ (by decide) _ (by decide)

/-- Witness for C9's quantified part at index "10", n = 9. -/
theorem wordle_any_digit_witness :
    parse_wordle ("Wordle " ++ (['1', '0'] : List Char).asString ++ " " ++
        (Char.ofNat (48 + 9)).toString ++ "/6") =
      some ⟨"Wordle", (['1', '0'] : List Char).asString, (9 : Int)⟩ :=
  wordle_any_digit.2.2 ['1', '0'] (by decide) (by decide) 9 (by norm_num)

/-- Claim C8: FoodGuessr accepts space- and comma-separated thousands, both
yielding score 11000, and every FoodGuessr result has an empty puzzle
number. -/
theorem foodguessr_rule :
    parse_foodguessr "I got 11 000 on the FoodGuessr Challenge" =
      some ⟨"FoodGuessr", "", 11000⟩ ∧
    parse_foodguessr "I got 11,000 on the FoodGuessr Challenge" =
      some ⟨"FoodGuessr", "", 11000⟩ ∧
    ∀ text r, parse_foodguessr text = some r → r.number = "" := by
  refine ⟨by decide, by decide, ?_⟩
  intro text r h
  simp only [parse_foodguessr] at h
  split at h
  · exact absurd h (by simp)
  · split at h
    · exact absurd h (by simp)
    · rw [Option.some_inj] at h
      subst h
      rfl

/-- Witness for C8's quantified part at a concrete text. -/
theorem foodguessr_rule_witness :
    (⟨"FoodGuessr", "", 11000⟩ : ParsedScore).number = "" :=
  foodguessr_rule.2.2 "I got 11 000 on the FoodGuessr Challenge"
    ⟨"FoodGuessr", "", 11000⟩ (by decide)

/-- Claim C3: when the Connections header matches, the palette squares of
the blank-line-truncated window after it are grouped into consecutive
chunks of four in appearance order (the chunks concatenate back to the
squares and none exceeds four, so a short trailing chunk is never a
mistake); the score is the number of chunks of exactly four squares not all
of one color, forced to 4 when more than seven chunks appear; zero palette
squares yield no match. -/
theorem connections_score_rule (text : String) (pos : Nat) (caps : Caps)
    (rest colors : List Char)
    (h : reSearch connectionsToks text.toList = some (pos, caps, rest))
    (hc : colors = (cutBlank rest).filter (fun c => connectionsPalette.contains c)) :
    (colors = [] → parse_connections text = none) ∧
    (colors ≠ [] →
        (chunks4 colors).flatten = colors ∧
        (∀ row ∈ chunks4 colors, row.length ≤ 4) ∧
        parse_connections text =
          some ⟨"Connections", (getCap caps 1).asString, connectionsClaimScore colors⟩) := by
  constructor
  · intro hempty
    rw [hempty] at hc
    have hemp : ((cutBlank rest).filter fun c => connectionsPalette.contains c) = [] :=
      hc.symm
    simp only [parse_connections, h, hemp]
    rfl
  · intro hne
    refine ⟨chunks4_flatten colors, chunks4_rows_le_four colors, ?_⟩
    have hfilter : (chunks4 colors).filter
          (fun row => row.length == 4 && row.dedup.length != 1) =
        (chunks4 colors).filter (fun row => row.length == 4 && !allSameB row) :=
      List.filter_congr (fun row _ => mistake_cond row)
    have hemp : colors.isEmpty = false := by
      simpa [List.isEmpty_iff] using hne
    simp only [parse_connections, h, connectionsClaimScore, ← hc, hfilter, hemp,
      Bool.false_eq_true, if_false]

/-- Witness for C3 on a concrete Connections share: one all-green row and
one mixed row, score 1. -/
theorem connections_score_rule_witness :
    parse_connections "Connections Puzzle #50\n🟩🟩🟩🟩\n🟪🟩🟨🟦" =
      some ⟨"Connections", "50", 1⟩ := by
  have h := connections_score_rule "Connections Puzzle #50\n🟩🟩🟩🟩\n🟪🟩🟨🟦" 0
      [(1, ['5', '0'])] "\n🟩🟩🟩🟩\n🟪🟩🟨🟦".toList
      ['🟩', '🟩', '🟩', '🟩', '🟪', '🟩', '🟨', '🟦']
      (by decide) (by decide)
  exact ((h.2 (by decide)).2.2).trans (by decide)

/-- Claim C6: the normalizer returns 50 for a game with no GameSpec;
otherwise it applies the clamped linear formula (with the max = min case
defined as 100); the result always lies in [0, 100]; the endpoints map to
{0, 100} in the order implied by the direction flag; and out-of-range
inputs behave as the nearer bound (normalize(Wordle, 10) =
normalize(Wordle, 7)). -/
theorem normalize_score_spec (game : String) (x : ℚ) :
    (SCORE_RANGES game = none → normalize_score game x = 50) ∧
    (∀ r, SCORE_RANGES game = some r →
        normalize_score game x =
          (if r.lower_better then
             (if r.max ≠ r.min then
                100 * (r.max - max r.min (min r.max x)) / (r.max - r.min)
              else 100)
           else
             (if r.max ≠ r.min then
                100 * (max r.min (min r.max x) - r.min) / (r.max - r.min)
              else 100))) ∧
    (0 ≤ normalize_score game x ∧ normalize_score game x ≤ 100) ∧
    (∀ r, SCORE_RANGES game = some r → r.min < r.max →
        (if r.lower_better
         then normalize_score game r.min = 100 ∧ normalize_score game r.max = 0
         else normalize_score game r.min = 0 ∧ normalize_score game r.max = 100)) ∧
    normalize_score "Wordle" 10 = normalize_score "Wordle" 7 := by
  refine ⟨?_, ?_, ?_, ?_, ?_⟩
  · intro h
    simp [normalize_score, h]
  · intro r hr
    simp only [normalize_score, hr]
    rfl
  · cases hsr : SCORE_RANGES game with
    | none =>
        simp only [normalize_score, hsr]
        norm_num
    | some r =>
        have hle := ranges_min_le_max game r hsr
        have hb := normFormula_bounds r.min r.max x hle r.lower_better
        simpa only [normalize_score, hsr] using hb
  · intro r hr hlt
    have he := normFormula_endpoints r.min r.max hlt r.lower_better
    simpa only [normalize_score, hr] using he
  · simp only [normalize_score, normFormula, SCORE_RANGES, String.reduceEq, reduceIte]
    norm_num

/-- Witness for C6 at game "Wordle", raw score 10. -/
theorem normalize_score_spec_witness :
    0 ≤ normalize_score "Wordle" 10 ∧ normalize_score "Wordle" 10 ≤ 100 :=
  (normalize_score_spec "Wordle" 10).2.2.1

/-- Claim C7: the aggregate result is the list of non-null parser results
in the fixed registration order of `PARSERS`; the dispatcher's loop equals
an ordered filter-map over the parser outcomes; and replacing one parser's
fault by a clean no-match leaves the aggregate unchanged while every other
parser still runs. -/
theorem dispatcher_spec :
    (∀ text, api_parse_results text = (PARSERS.map (fun p => p text)).filterMap id) ∧
    (∀ (ps : List (String → POutcome)) (text : String),
        dispatchO ps text = (ps.map (fun p => runOutcome (p text))).filterMap id) ∧
    (∀ (pre post : List (String → POutcome)) (f g : String → POutcome) (text : String),
        f text = POutcome.fault → g text = POutcome.res none →
        dispatchO (pre ++ f :: post) text = dispatchO (pre ++ g :: post) text) := by
  refine ⟨?_, dispatchO_eq_filterMap, dispatchO_fault_eq_nomatch⟩
  intro text
  rw [api_parse_results, dispatchO_eq_filterMap]
  congr 1

/-- Witness for C7's fault-isolation clause: a faulting middle parser and a
no-match middle parser give the same aggregate result. -/
theorem dispatcher_spec_witness :
    dispatchO ([wrapped parse_travle] ++ (fun _ => POutcome.fault) :: [wrapped parse_wordle])
        "Wordle 900 X/6" =
      dispatchO ([wrapped parse_travle] ++ (fun _ => POutcome.res none) :: [wrapped parse_wordle])
        "Wordle 900 X/6" :=
  dispatcher_spec.2.2 [wrapped parse_travle] [wrapped parse_wordle]
    (fun _ => POutcome.fault) (fun _ => POutcome.res none) "Wordle 900 X/6" rfl rfl

/-- Claim C10: the date extractor recognizes "Wednesday, Feb 18, 2026"; a
lowercase weekday ("wednesday, ...") or a full month name ("February")
yields none — indeed any successful extraction requires one of the
exactly-capitalized weekday names to occur in the text — and when the
extractor returns none the caller substitutes today's date. -/
theorem date_extractor_rule :
    parse_date_from_text "Wednesday, Feb 18, 2026" = some "2026-02-18" ∧
    parse_date_from_text "wednesday, Feb 18, 2026" = none ∧
    parse_date_from_text "Wednesday, February 18, 2026" = none ∧
    (∀ text d, parse_date_from_text text = some d →
        ∃ w ∈ weekdayNames, w.toList <:+: text.toList) ∧
    (∀ text today, parse_date_from_text text = none → play_date text today = today) := by
  refine ⟨by decide, by decide, by decide, ?_, ?_⟩
  · intro text d h
    simp only [parse_date_from_text] at h
    cases hs : reSearch dateToks text.toList with
    | none => rw [hs] at h; exact absurd h (by simp)
    | some v =>
        have hs' : reSearchAux dateToks text.toList 0 = some v := hs
        unfold dateToks at hs'
        obtain ⟨l, hl, hinf⟩ :=
          reSearchAux_alt_infix (weekdayNames.map String.toList) _ text.toList 0 v hs'
        obtain ⟨w, hw, rfl⟩ := List.mem_map.mp hl
        exact ⟨w, hw, hinf⟩
  · intro text today h
    simp [play_date, h]

/-- Witness for C10's fallback clause on a dateless text. -/
theorem date_extractor_rule_witness :
    play_date "share text without a date" "2026-10-12" = "2026-10-12" :=
  date_extractor_rule.2.2.2.2 "share text without a date" "2026-10-12" (by decide)

end Guessr
